import Mathlib

/-!
links-r-us: the function adapters, the crawler's counting sink and pipeline assembly, the
text indexer, and the contracts of the BSP graph engine.

Go values are embedded as follows.  An `error` is `Option String` (`none` is
`nil`).  Interface values whose concrete type is irrelevant are type
parameters.  Functions that may have side effects take and return an explicit
world/state value.
-/

namespace LinksRUs

/-- Go `error`: `none` is `nil`, `some e` an error with text `e`. -/
abbrev GoError := Option String

/-! ## bspgraph/message/message.go -/

namespace message

/-- Go `Message` (message.go:4-6): the only observable of the interface is `Type()`;
the body stands for whatever else the concrete type carries. -/
structure Message where
  msgType : String
  body : Int
deriving DecidableEq, Repr

/-- Modelled from the spec: the failure of a queue operation (§4.1, §7), `QueueClosed`. -/
inductive QueueError where
  | QueueClosed
deriving DecidableEq, Repr

/-- Modelled from the spec: an implementation of the `Queue` interface (message.go:9-15;
the implementations live elsewhere in the repository).  Spec §3: two buffers per vertex,
"incoming" (read-only during the current superstep) and "outgoing" (write-only,
accumulating next-round messages).  `α` is the message type. -/
structure Queue (α : Type) where
  incoming : List α
  outgoing : List α
  closed : Bool
deriving DecidableEq, Repr

namespace Queue

variable {α : Type}

/-- Modelled from the spec: a newly created queue (§3), both buffers empty, not closed. -/
def fresh : Queue α := { incoming := [], outgoing := [], closed := false }

/-- Modelled from the spec: §4.1, `Enqueue(message)` appends to the outgoing buffer; fails with
`QueueClosed` if invoked after the queue has been closed. -/
def Enqueue (q : Queue α) (msg : α) : Except QueueError (Queue α) :=
  if q.closed then .error .QueueClosed
  else .ok { q with outgoing := q.outgoing ++ [msg] }

/-- Modelled from the spec: §4.1, `Messages()` produces a finite, single-pass sequence over the
incoming buffer; the sequence is the list of messages the iterator returns, in order. -/
def Messages (q : Queue α) : List α := q.incoming

/-- Modelled from the spec: §4.1, `PendingMessages()` reports whether the incoming buffer is
non-empty. -/
def PendingMessages (q : Queue α) : Bool := !q.incoming.isEmpty

/-- Modelled from the spec: §4.1, `DiscardMessages()` clears the incoming buffer without
processing. -/
def DiscardMessages (q : Queue α) : Queue α := { q with incoming := [] }

/-- Modelled from the spec: §4.1, `Close()` releases queue resources; subsequent `Enqueue` calls
fail. -/
def Close (q : Queue α) : Queue α := { q with closed := true }

/-- Modelled from the spec: §3, at the superstep barrier, outgoing becomes incoming and a fresh
outgoing buffer is installed; the old incoming buffer is discarded. -/
def swap (q : Queue α) : Queue α := { q with incoming := q.outgoing, outgoing := [] }

/-- Repeated `Enqueue` of several messages, one after the other, stopping at the first failure. -/
def enqueueAll (q : Queue α) : List α → Except QueueError (Queue α)
  | [] => .ok q
  | msg :: rest =>
    match q.Enqueue msg with
    | .error e => .error e
    | .ok q1 => enqueueAll q1 rest

/-- The queue of one vertex at the start of superstep `n`, that is after `n` barriers,
when `sends k` lists the messages enqueued for the vertex during superstep `k`. -/
def atSuperstep (sends : Nat → List α) : Nat → Except QueueError (Queue α)
  | 0 => .ok fresh
  | n + 1 =>
    match atSuperstep sends n with
    | .error e => .error e
    | .ok q =>
      match q.enqueueAll (sends n) with
      | .error e => .error e
      | .ok q1 => .ok q1.swap

/-- The queue at a point inside superstep `n`: the first `i` messages of `sends n` have
been enqueued, the barrier of `n` has not happened. -/
def during (sends : Nat → List α) (n i : Nat) : Except QueueError (Queue α) :=
  match atSuperstep sends n with
  | .error e => .error e
  | .ok q => q.enqueueAll ((sends n).take i)

/-- Every message of the schedule paired with the superstep in which it is enqueued. -/
def stamped (sends : Nat → List α) : Nat → List (Nat × α) :=
  fun k => (sends k).map (fun msg => (k, msg))

end Queue

end message

/-! ## bspgraph/interfaces.go -/

namespace bspgraph

open message

/-- Go `RelayerFunc` (interfaces.go:21): `func(string, message.Message) error`.
The world `σ` carries whatever the function reads or changes. -/
abbrev RelayerFunc (σ : Type) := σ → String → Message → σ × GoError

/-- Go `RelayerFunc.Relay` (interfaces.go:24-26): `return f(dst, msg)`. -/
def RelayerFunc.Relay {σ : Type} (f : RelayerFunc σ) (w : σ) (dst : String) (msg : Message) :
    σ × GoError :=
  f w dst msg

/-! ### Aggregator (spec §3, §4.2) -/

/-- Modelled from the spec: an implementation of the `Aggregator` interface
(interfaces.go:6-12; the implementations live elsewhere in the repository).  Spec §3: a current
merged value, a per-superstep delta and an accumulation rule; spec §4.2 and §9: every
worker folds into a private accumulator of its own, combined only at the barrier.
`kind` is what `Type()` returns, `zero` the value of a cleared accumulator, `locals w`
the accumulator of worker `w`, and `used` bounds the workers that contributed since the
last reset. -/
structure Aggregator (α : Type) where
  kind : String
  rule : α → α → α
  zero : α
  merged : α
  locals : Nat → α
  used : Nat

namespace Aggregator

variable {α : Type}

/-- Modelled from the spec: a registered aggregator (§3) with merged value `init` and a
cleared delta. -/
def new (kind : String) (rule : α → α → α) (zero init : α) : Aggregator α :=
  { kind := kind, rule := rule, zero := zero, merged := init, locals := fun _ => zero, used := 0 }

/-- Modelled from the spec: §4.2, `Get()` returns the last-merged, durable value (not the
in-flight delta). -/
def Get (a : Aggregator α) : α := a.merged

/-- Modelled from the spec: §4.2, `Delta()` returns the contribution accumulated since the last
merge: the accumulators of the workers, combined with the rule. -/
def Delta (a : Aggregator α) : α :=
  (List.range a.used).foldl (fun acc w => a.rule acc (a.locals w)) a.zero

/-- Modelled from the spec: §3, reset at the start of each superstep (delta cleared). -/
def reset (a : Aggregator α) : Aggregator α :=
  { a with locals := fun _ => a.zero, used := 0 }

/-- Modelled from the spec: §4.2, `Set(value)` overwrites the merged value and resets delta. -/
def Set (a : Aggregator α) (val : α) : Aggregator α :=
  { a.reset with merged := val }

/-- Modelled from the spec: §4.2, `Aggregate(value)`, called by worker `w`, folds the value into
this worker's local contribution using the combination rule. -/
def Aggregate (a : Aggregator α) (w : Nat) (val : α) : Aggregator α :=
  { a with
    locals := fun i => if i = w then a.rule (a.locals w) val else a.locals i
    used := max a.used (w + 1) }

/-- Modelled from the spec: §3, §4.5 (c), merged at the barrier; the merged value persists. -/
def merge (a : Aggregator α) : Aggregator α :=
  { a with merged := a.rule a.merged a.Delta }

/-- The `Aggregate` calls of one superstep, `(worker, value)` in the order they take
effect. -/
def aggregateAll (a : Aggregator α) (calls : List (Nat × α)) : Aggregator α :=
  calls.foldl (fun acc c => acc.Aggregate c.1 c.2) a

end Aggregator

/-! ### Graph, vertices and the superstep executor (spec §3, §4.4, §4.5, §5, §7) -/

/-- Modelled from the spec: a staged structural mutation (§3, §4.4), adding or removing a
vertex or an edge; it takes effect at the next superstep boundary. -/
inductive Mutation where
  | addVertex (key : String) (value : Int)
  | removeVertex (key : String)
  | addEdge (src : String) (dst : String) (payload : Int)
  | removeEdge (src : String) (dst : String)
deriving DecidableEq, Repr

/-- Modelled from the spec: §7, error taxonomy, what aborts a superstep: a compute error, a
relay error, `QueueClosed`, a storage-layer error met while staging a mutation (§4.5), and
the external cancellation (`CancelledError`, §5). -/
inductive EngineError where
  | ComputeError (vertex : String) (err : String)
  | RelayError (dst : String) (err : String)
  | QueueClosed (dst : String)
  | StorageError (vertex : String) (err : String)
  | CancelledError
deriving DecidableEq, Repr

/-- Modelled from the spec: §7, the single terminal outcome of an execution. -/
inductive Outcome where
  | HaltedConverged
  | HaltedMaxSupersteps
  | Cancelled
  | Failed (err : EngineError)
deriving DecidableEq, Repr

/-- Modelled from the spec: §5 and §7, how the error that ended a superstep is reported: the
cancellation as the distinct "cancelled" outcome, every other error as failed-with-error. -/
def Outcome.ofError : EngineError → Outcome
  | .CancelledError => .Cancelled
  | .ComputeError v e => .Failed (.ComputeError v e)
  | .RelayError d e => .Failed (.RelayError d e)
  | .QueueClosed d => .Failed (.QueueClosed d)
  | .StorageError v e => .Failed (.StorageError v e)

/-- Modelled from the spec: `Vertex` (named in interfaces.go:29, declared elsewhere in the
repository).  Spec §3: a key, a mutable value, outgoing edges, an `active` flag,
and the vertex's message queue. -/
structure Vertex where
  key : String
  value : Int
  edges : List (String × Int)
  active : Bool
  queue : Queue Message
deriving DecidableEq, Repr

/-- Modelled from the spec: `Graph` (named in interfaces.go:29, declared elsewhere in the
repository): the vertices of this partition, the aggregator registry (§2, §3) and the
structural mutations staged since the last barrier (§4.4). -/
structure Graph where
  vertices : List Vertex
  aggregators : List (String × Aggregator Int)
  staged : List Mutation

/-- Modelled from the spec: what a compute invocation can read of the graph handle
(§4.4), the superstep number and the merged aggregator values. -/
structure GraphView where
  superstep : Nat
  aggregated : List (String × Int)
deriving DecidableEq, Repr

/-- Modelled from the spec: what one invocation of a compute function does through its handles
(§4.4), the new vertex value, whether it votes to halt, the messages it sends, the structural
mutations it asks for, the values it feeds to named aggregators, and the error it returns. -/
structure ComputeResult where
  value : Int
  voteToHalt : Bool
  sends : List (String × Message)
  mutations : List Mutation
  aggregate : List (String × Int)
  err : GoError
deriving DecidableEq, Repr

/-- Go `ComputeFunc` (interfaces.go:29): `func(g *Graph, v *Vertex, msgIt message.Iterator) error`,
with the effects on `g` and `v` returned as a `ComputeResult`. -/
abbrev ComputeFunc := GraphView → Vertex → List Message → ComputeResult

/-- Modelled from the spec: what an execution is run with (§4.5, §5, §6): the size of the
worker pool, the configured relayer, the storage layer that stages a mutation (and may fail),
the optional cap on supersteps, the optional user-supplied convergence check over the merged
aggregator values, and the external cancellation signal.  `cancelAt = some (s, p)` says that
the signal is observed during superstep `s`, after the results of `p` vertices (or of all
of them, if fewer are dispatched) and before the barrier. -/
structure ExecutorConfig where
  workers : Nat
  relayer : RelayerFunc Unit
  storage : Mutation → GoError
  maxSupersteps : Option Nat
  convergence : Option (List (String × Int) → Bool)
  cancelAt : Option (Nat × Nat)

/-- Modelled from the spec: §3, a vertex as it is created: active, with a fresh queue. -/
def Vertex.new (key : String) (value : Int) (edges : List (String × Int)) : Vertex :=
  { key := key, value := value, edges := edges, active := true, queue := Queue.fresh }

/-- Modelled from the spec: §3, a graph whose vertices start active, each with a fresh queue,
and with nothing staged. -/
def Graph.new (vs : List (String × Int × List (String × Int)))
    (aggs : List (String × Aggregator Int)) : Graph :=
  { vertices := vs.map (fun v => Vertex.new v.1 v.2.1 v.2.2)
    aggregators := aggs
    staged := [] }

/-- Modelled from the spec: the merged value of every registered aggregator (§6,
aggregator external surface). -/
def Graph.aggregated (g : Graph) : List (String × Int) :=
  g.aggregators.map (fun na => (na.1, na.2.Get))

/-- Modelled from the spec: something observed while a superstep runs (§4.5, §5, §7), a message
handed to the relayer, with what the relayer returned; a message enqueued for a local vertex,
with the failure if any; a mutation handed to the storage layer for staging, with what it
returned; a compute invocation that returned; the external cancellation signal. -/
inductive Event where
  | relayed (dst : String) (msg : Message) (result : GoError)
  | enqueued (dst : String) (msg : Message) (failure : Option QueueError)
  | staged (vertex : String) (m : Mutation) (result : GoError)
  | computed (vertex : String) (result : GoError)
  | cancelled
deriving DecidableEq, Repr

/-- Modelled from the spec: the fatal error an event stands for, if any (§7). -/
def Event.error : Event → Option EngineError
  | .relayed dst _ (some e) => some (.RelayError dst e)
  | .relayed _ _ none => none
  | .enqueued dst _ (some _) => some (.QueueClosed dst)
  | .enqueued _ _ none => none
  | .staged v _ (some e) => some (.StorageError v e)
  | .staged _ _ none => none
  | .computed v (some e) => some (.ComputeError v e)
  | .computed _ none => none
  | .cancelled => some .CancelledError

/-- Modelled from the spec: §7, the first error observed. -/
def firstError (evs : List Event) : Option EngineError :=
  evs.findSome? Event.error

/-- Modelled from the spec: install `q` as the queue of the vertex with key `dst`. -/
def Graph.setQueue (g : Graph) (dst : String) (q : Queue Message) : Graph :=
  { g with vertices := g.vertices.map (fun u => if u.key = dst then { u with queue := q } else u) }

/-- Modelled from the spec: store the value and the active flag a compute invocation
left on vertex `key` (§3). -/
def Graph.setVertex (g : Graph) (key : String) (value : Int) (active : Bool) : Graph :=
  { g with vertices :=
      g.vertices.map (fun u => if u.key = key then { u with value := value, active := active } else u) }

/-- Modelled from the spec: worker `w` feeds `val` to the aggregator registered under
`name` (§4.2). -/
def Graph.contribute (g : Graph) (w : Nat) (name : String) (val : Int) : Graph :=
  { g with aggregators :=
      g.aggregators.map (fun na => if na.1 = name then (na.1, na.2.Aggregate w val) else na) }

/-- Modelled from the spec: §4.4, §4.3, sending the messages of one compute invocation, in
order.  A destination that resolves to a local vertex gets the message enqueued (outgoing
buffer); any other destination goes through the relayer.  The first failing send ends the
invocation. -/
def deliver (cfg : ExecutorConfig) (g : Graph) : List (String × Message) → Graph × List Event
  | [] => (g, [])
  | (dst, msg) :: rest =>
    match g.vertices.find? (fun u => u.key = dst) with
    | some u =>
      match u.queue.Enqueue msg with
      | .ok q =>
        let r := deliver cfg (g.setQueue dst q) rest
        (r.1, Event.enqueued dst msg none :: r.2)
      | .error e => (g, [Event.enqueued dst msg (some e)])
    | none =>
      match (RelayerFunc.Relay cfg.relayer () dst msg).2 with
      | none =>
        let r := deliver cfg g rest
        (r.1, Event.relayed dst msg none :: r.2)
      | some e => (g, [Event.relayed dst msg (some e)])

/-- Modelled from the spec: §4.4, §4.5, staging the structural mutations of the compute
invocation on vertex `key`, in order, through the storage layer.  A staged mutation waits for
the barrier; the first storage-layer error ends the invocation. -/
def stage (cfg : ExecutorConfig) (key : String) (g : Graph) : List Mutation → Graph × List Event
  | [] => (g, [])
  | m :: rest =>
    match cfg.storage m with
    | none =>
      let r := stage cfg key { g with staged := g.staged ++ [m] } rest
      (r.1, Event.staged key m none :: r.2)
    | some e => (g, [Event.staged key m (some e)])

/-- Modelled from the spec: §4.5, Running(N), worker `w` invokes the compute function on
vertex `v` with the messages of its incoming buffer.  A dispatched vertex is active unless
this invocation votes to halt. -/
def processVertex (cfg : ExecutorConfig) (compute : ComputeFunc) (n : Nat) (g : Graph)
    (w : Nat) (v : Vertex) : Graph × List Event :=
  let eff := compute { superstep := n, aggregated := g.aggregated } v v.queue.Messages
  let sent := deliver cfg g eff.sends
  match firstError sent.2 with
  | some _ => sent
  | none =>
    let kept := stage cfg v.key sent.1 eff.mutations
    match firstError kept.2 with
    | some _ => (kept.1, sent.2 ++ kept.2)
    | none =>
      match eff.err with
      | some e => (kept.1, sent.2 ++ kept.2 ++ [Event.computed v.key (some e)])
      | none =>
        let g1 := kept.1.setVertex v.key eff.value (!eff.voteToHalt)
        let g2 := eff.aggregate.foldl (fun acc nv => acc.contribute w nv.1 nv.2) g1
        (g2, sent.2 ++ kept.2 ++ [Event.computed v.key none])

/-- Modelled from the spec: the progress of a superstep (§4.5), the graph so far, the
events observed so far, and the wave in which the first error was observed. -/
structure StepState where
  graph : Graph
  events : List Event
  abortWave : Option Nat

/-- Modelled from the spec: §5, the cancellation signal as observed in superstep `n` right
before the result of vertex number `i` of the dispatch set. -/
def cancelEvents (cfg : ExecutorConfig) (n i : Nat) : List Event :=
  if cfg.cancelAt = some (n, i) then [Event.cancelled] else []

/-- Modelled from the spec: §4.5 and §5, the dispatch set is handed to a fixed pool of
`cfg.workers` workers.  Vertex number `i` of the dispatch set is computed by worker
`i % workers` in wave `i / workers`; the vertices of one wave are in flight together.  Once
an error or the cancellation signal has been observed, the vertices of later waves are not
dispatched; those of the same wave finish. -/
def stepVertex (cfg : ExecutorConfig) (compute : ComputeFunc) (n : Nat) (st : StepState)
    (iv : Nat × Vertex) : StepState :=
  let wave := iv.1 / cfg.workers
  match st.abortWave with
  | some a =>
    if a < wave then st
    else
      let r := processVertex cfg compute n st.graph (iv.1 % cfg.workers) iv.2
      { graph := r.1, events := st.events ++ (cancelEvents cfg n iv.1 ++ r.2), abortWave := some a }
  | none =>
    let r := processVertex cfg compute n st.graph (iv.1 % cfg.workers) iv.2
    { graph := r.1, events := st.events ++ (cancelEvents cfg n iv.1 ++ r.2)
      abortWave := if (firstError (cancelEvents cfg n iv.1 ++ r.2)).isSome then some wave else none }

/-- Modelled from the spec: §4.5, Running(N), the vertices to visit are those still active and
those with pending messages. -/
def dispatchSet (g : Graph) : List Vertex :=
  g.vertices.filter (fun v => v.active || v.queue.PendingMessages)

/-- Modelled from the spec: §3, aggregators are reset at the start of each superstep. -/
def Graph.resetAggregators (g : Graph) : Graph :=
  { g with aggregators := g.aggregators.map (fun na => (na.1, na.2.reset)) }

/-- Modelled from the spec: §5, the cancellation signal as observed in superstep `n` after the
results of all `dispatched` vertices and before the barrier, unless the superstep was
aborted before. -/
def lateCancel (cfg : ExecutorConfig) (n dispatched : Nat) (st : StepState) : List Event :=
  match cfg.cancelAt with
  | none => []
  | some sp =>
    if sp.1 = n ∧ dispatched ≤ sp.2 ∧ st.abortWave = none then [Event.cancelled] else []

/-- Modelled from the spec: §4.5, Running(N), one superstep, without its barrier.  Returns the
graph the workers left and the events in the order observed. -/
def runSuperstep (cfg : ExecutorConfig) (compute : ComputeFunc) (n : Nat) (g : Graph) :
    Graph × List Event :=
  let g0 := g.resetAggregators
  let st := (dispatchSet g0).enum.foldl (stepVertex cfg compute n)
    { graph := g0, events := [], abortWave := none }
  (st.graph, st.events ++ lateCancel cfg n (dispatchSet g0).length st)

/-- Modelled from the spec: §3, §4.4, the effect of one structural mutation on the topology.
A vertex is added active, with a fresh queue, unless its key is taken; a removed vertex
goes with its queue. -/
def Graph.apply (g : Graph) : Mutation → Graph
  | .addVertex key value =>
    if g.vertices.any (fun u => u.key = key) then g
    else { g with vertices := g.vertices ++ [Vertex.new key value []] }
  | .removeVertex key =>
    { g with vertices := g.vertices.filter (fun u => ¬ u.key = key) }
  | .addEdge src dst payload =>
    { g with vertices := g.vertices.map (fun u =>
        if u.key = src then { u with edges := u.edges ++ [(dst, payload)] } else u) }
  | .removeEdge src dst =>
    { g with vertices := g.vertices.map (fun u =>
        if u.key = src then { u with edges := u.edges.filter (fun e => ¬ e.1 = dst) } else u) }

/-- Modelled from the spec: §4.5, Barrier(N), (a), commit the staged structural mutations, in
the order staged. -/
def Graph.commit (g : Graph) : Graph :=
  { g.staged.foldl Graph.apply g with staged := [] }

/-- Modelled from the spec: §4.5, Barrier(N), (a), (b) and (c), commit the staged structural
mutations, swap each vertex's message buffers and merge all aggregator deltas. -/
def barrier (g : Graph) : Graph :=
  { vertices := g.commit.vertices.map (fun v => { v with queue := v.queue.swap })
    aggregators := g.commit.aggregators.map (fun na => (na.1, na.2.merge))
    staged := [] }

/-- Modelled from the spec: §4.5, Barrier(N), (d), halt when no vertex is active and no vertex
has pending messages for the next round and the optional convergence check is satisfied. -/
def converged (cfg : ExecutorConfig) (g : Graph) : Bool :=
  g.vertices.all (fun v => !v.active && !v.queue.PendingMessages) &&
    (match cfg.convergence with
     | none => true
     | some check => check g.aggregated)

/-- Modelled from the spec: §4.5, the configured maximum superstep count is reached after `done`
rounds. -/
def capReached (cfg : ExecutorConfig) (done : Nat) : Bool :=
  match cfg.maxSupersteps with
  | none => false
  | some k => decide (k ≤ done)

/-- Modelled from the spec: what an execution returns (§7), the terminal outcome, the
state exposed to the caller and the number of completed barriers. -/
structure Result where
  outcome : Outcome
  graph : Graph
  barriers : Nat

/-- Modelled from the spec: §4.5, §5 and §7, the executor loop from superstep `n` on.  A
superstep in which an error or the cancellation signal is observed ends the execution: its
barrier does not take place, the state exposed is that of the last completed barrier, and the
outcome reports the first error observed, "cancelled" for the cancellation signal and
failed-with-error otherwise.  Otherwise the barrier is performed; the execution halts when
converged, halts with the distinct max-supersteps outcome when the cap is reached without
convergence, and starts the next superstep otherwise.  `fuel` bounds the number of
supersteps; `none` means the bound was hit. -/
def run (cfg : ExecutorConfig) (compute : ComputeFunc) : Nat → Nat → Graph → Option Result
  | 0, _, _ => none
  | fuel + 1, n, g =>
    let r := runSuperstep cfg compute n g
    match firstError r.2 with
    | some e => some { outcome := Outcome.ofError e, graph := g, barriers := n }
    | none =>
      let g1 := barrier r.1
      if converged cfg g1 then
        some { outcome := .HaltedConverged, graph := g1, barriers := n + 1 }
      else if capReached cfg (n + 1) then
        some { outcome := .HaltedMaxSupersteps, graph := g1, barriers := n + 1 }
      else run cfg compute fuel (n + 1) g1

/-- The state in which superstep `n + k` starts, for an execution that is in state `g`
at the start of superstep `n`; `none` when the execution ends before. -/
def reach (cfg : ExecutorConfig) (compute : ComputeFunc) : Nat → Nat → Graph → Option Graph
  | 0, _, g => some g
  | k + 1, n, g =>
    let r := runSuperstep cfg compute n g
    match firstError r.2 with
    | some _ => none
    | none =>
      let g1 := barrier r.1
      if converged cfg g1 then none
      else if capReached cfg (n + 1) then none
      else reach cfg compute k (n + 1) g1

/-- The graph has at least one vertex, all its vertices are active, and no removal of a
vertex is staged. -/
def Graph.allActive (g : Graph) : Prop :=
  g.vertices ≠ [] ∧ (∀ u ∈ g.vertices, u.active = true) ∧
    ∀ key, Mutation.removeVertex key ∉ g.staged

/-- The compute function never votes to halt. -/
def neverVotesToHalt (compute : ComputeFunc) : Prop :=
  ∀ view v msgs, (compute view v msgs).voteToHalt = false

/-- The compute function never asks for the removal of a vertex. -/
def neverRemovesVertex (compute : ComputeFunc) : Prop :=
  ∀ view v msgs key, Mutation.removeVertex key ∉ (compute view v msgs).mutations

/-- Every relayer event of the log records a call of the configured relayer and what it
returned. -/
def honestLog (cfg : ExecutorConfig) (evs : List Event) : Prop :=
  ∀ dst msg r, Event.relayed dst msg r ∈ evs → r = (RelayerFunc.Relay cfg.relayer () dst msg).2

/-- Start an execution at superstep 0. -/
def execute (cfg : ExecutorConfig) (compute : ComputeFunc) (fuel : Nat) (g : Graph) :
    Option Result :=
  run cfg compute fuel 0 g

/-! ### Concrete executions -/

/-- A relayer that fails for every destination, naming it. -/
def unreachableRelayer : RelayerFunc Unit :=
  fun _ dst _ => ((), some ("no route to " ++ dst))

/-- A configuration with `workers` workers, the failing relayer, a storage layer that never
fails, the cap `cap`, no convergence check and no cancellation signal. -/
def sampleConfig (workers : Nat) (cap : Option Nat) : ExecutorConfig :=
  { workers := workers, relayer := unreachableRelayer, storage := fun _ => none
    maxSupersteps := cap, convergence := none, cancelAt := none }

/-- The configuration `sampleConfig workers cap` with the cancellation signal observed at
the start of superstep `s`. -/
def cancelledConfig (workers : Nat) (cap : Option Nat) (s : Nat) : ExecutorConfig :=
  { sampleConfig workers cap with cancelAt := some (s, 0) }

/-- A compute function that leaves the vertex as it is, sends nothing and never votes
to halt. -/
def idleCompute : ComputeFunc :=
  fun _ v _ =>
    { value := v.value, voteToHalt := false, sends := [], mutations := [], aggregate := []
      err := none }

/-- A compute function that never votes to halt and returns an error. -/
def failingCompute : ComputeFunc :=
  fun _ v _ =>
    { value := v.value, voteToHalt := false, sends := [], mutations := [], aggregate := []
      err := some "boom" }

/-- A compute function that never votes to halt and asks for the removal of its own vertex. -/
def removingCompute : ComputeFunc :=
  fun _ v _ =>
    { value := v.value, voteToHalt := false, sends := []
      mutations := [Mutation.removeVertex v.key], aggregate := [], err := none }

/-- A compute function that sends one message along every outgoing edge of its vertex. -/
def forwardingCompute : ComputeFunc :=
  fun _ v _ =>
    { value := v.value, voteToHalt := false
      sends := v.edges.map (fun e => (e.1, { msgType := "ping", body := e.2 }))
      mutations := [], aggregate := [], err := none }

/-- A compute function that returns an error on a vertex without outgoing edges and
sends one message along every outgoing edge otherwise. -/
def failOrForwardCompute : ComputeFunc :=
  fun view v msgs =>
    if v.edges.isEmpty then failingCompute view v msgs else forwardingCompute view v msgs

/-- Two vertices: `a` without edges, and `b` with an edge to `z`, a vertex of another
partition. -/
def isolatedAndRemoteEdge : Graph :=
  Graph.new [("a", 0, []), ("b", 0, [("z", 2)])] []

/-- One vertex `a` with an edge to `z`, a vertex of another partition. -/
def oneRemoteEdge : Graph :=
  Graph.new [("a", 0, [("z", 1)])] []

/-- Two vertices `a` and `b`, with edges to `y` and `z`, vertices of another partition. -/
def twoRemoteEdges : Graph :=
  Graph.new [("a", 0, [("y", 1)]), ("b", 0, [("z", 2)])] []

end bspgraph

/-! ## pipeline/interfaces.go -/

namespace pipeline

/-- Go `ProcessorFunc` (interfaces.go:18): `func(context.Context, Payload) (Payload, error)`.
`κ` is the context type, `π` the payload type (a `nil` payload is `none`). -/
abbrev ProcessorFunc (σ κ π : Type) := σ → κ → Option π → σ × (Option π × GoError)

/-- Go `ProcessorFunc.Process` (interfaces.go:21-23): `return f(ctx, p)`. -/
def ProcessorFunc.Process {σ κ π : Type} (f : ProcessorFunc σ κ π) (w : σ) (ctx : κ)
    (p : Option π) : σ × (Option π × GoError) :=
  f w ctx p

/-- Modelled from the spec: the stage constructors `FixedWorkerPool`, `FIFO` and `Broadcast`
that crawler.go:73-84 calls (§6, crawler pipeline boundary).  Their bodies live elsewhere in
the repository, so a stage is the record of the constructor call that made it:
`FixedWorkerPool(proc, numWorkers)` is the fixed-size worker stage, `FIFO(proc)` the
single-worker stage and `Broadcast(procs...)` the fan-out stage. -/
inductive StageRunner (P : Type) where
  | FixedWorkerPool (proc : P) (numWorkers : Int)
  | FIFO (proc : P)
  | Broadcast (procs : List P)
deriving DecidableEq, Repr

/-- Modelled from the spec: `Pipeline` (§6), the stages in the order they were given. -/
structure Pipeline (P : Type) where
  stages : List (StageRunner P)
deriving DecidableEq, Repr

/-- Modelled from the spec: `pipeline.New(stages...)`, called at crawler.go:73, strings
the stages together in the order given. -/
def New {P : Type} (stages : List (StageRunner P)) : Pipeline P :=
  { stages := stages }

end pipeline

/-! ## textindexer: the document handed to an Indexer -/

namespace index

/-- Modelled from the spec: `index.Document` is declared elsewhere in the repository and the
spec does not describe it; the fields are those that text_indexer.go:24-30 sets.  `LinkID`
is a `uuid.UUID`, `IndexedAt` a `time.Time`. -/
structure Document where
  LinkID : Nat
  URL : String
  Title : String
  Content : String
  IndexedAt : Int
deriving DecidableEq, Repr

end index

/-! ## crawler/crawler.go: countingSink and Crawl -/

namespace crawler

/-- Width of Go's `int` on a 64-bit target. -/
def intBits : Nat := 64

/-- Largest `int`: `2^63 - 1`. -/
def maxInt : Int := 2 ^ (intBits - 1) - 1

/-- Two's-complement wrap of a mathematical integer into the range of `int`. -/
def wrapInt (x : Int) : Int :=
  (x + 2 ^ (intBits - 1)) % 2 ^ intBits - 2 ^ (intBits - 1)

/-- Go `countingSink` (crawler.go:111-113). -/
structure countingSink where
  count : Int
deriving DecidableEq, Repr

/-- Go `new(countingSink)`: the zero value. -/
def countingSink.new : countingSink := { count := 0 }

/-- Go `countingSink.Consume` (crawler.go:115-118): `s.count++; return nil`.
The payload is ignored. -/
def countingSink.Consume {π : Type} (s : countingSink) (_p : π) : countingSink × GoError :=
  ({ count := wrapInt (s.count + 1) }, none)

/-- Go `countingSink.getCount` (crawler.go:120-123): `s.count / 2`, Go's truncated division. -/
def countingSink.getCount (s : countingSink) : Int :=
  Int.tdiv s.count 2

/-- Modelled from the spec: `Pipeline.Process` is defined elsewhere in the repository and
the spec (§6) only names the pipeline, so a call of it is a parameter of `Crawl`: what it
does as far as `Crawl` can see, the payloads it hands to the sink, in order, and the error
it returns. -/
structure ProcessRun (π : Type) where
  emitted : List π
  err : GoError

/-- The sink after the pipeline handed it the payloads `ps` one by one. -/
def consumeAll {π : Type} (s : countingSink) (ps : List π) : countingSink :=
  ps.foldl (fun acc p => (acc.Consume p).1) s

/-- Go `Crawler.Crawl` (crawler.go:89-93): a fresh sink, one `Process` call, and
`return sink.getCount(), err`.  `process` is the pipeline run on the link iterator. -/
def Crawl {ι π : Type} (process : ι → ProcessRun π) (linkIt : ι) : Int × GoError :=
  let sink := countingSink.new
  let run := process linkIt
  let sink := consumeAll sink run.emitted
  (sink.getCount, run.err)

/-! ## crawler/text_indexer.go -/

/-- Modelled from the spec: `crawlerPayload` is declared elsewhere in the repository and the
spec does not describe it; the fields are those that crawler.go:105-107 and
text_indexer.go:25-28 use. -/
structure crawlerPayload where
  LinkID : Nat
  URL : String
  RetrievedAt : Int
  Title : String
  TextContent : String
deriving DecidableEq, Repr

/-- A `pipeline.Payload` interface value as `textIndexer.Process` meets it: a
`*crawlerPayload`, or a value of some other dynamic type. -/
inductive Payload where
  | crawler (payload : crawlerPayload)
  | foreign (typeName : String)
deriving DecidableEq, Repr

/-- Go `Indexer` (crawler.go:32-34): `Index(doc *index.Document) error`, with the
state `σ` of the implementation made explicit. -/
structure Indexer (σ : Type) where
  Index : σ → index.Document → σ × GoError

/-- Go `textIndexer` (text_indexer.go:11-13). -/
structure textIndexer (σ : Type) where
  indexer : Indexer σ

/-- Go `newTextIndexer` (text_indexer.go:15-19). -/
def newTextIndexer {σ : Type} (indexer : Indexer σ) : textIndexer σ :=
  { indexer := indexer }

/-- Go `textIndexer.Process` (text_indexer.go:21-36).  `now` is the value of
`time.Now()`; the result is `none` when the type assertion `p.(*crawlerPayload)`
panics. -/
def textIndexer.Process {σ κ : Type} (i : textIndexer σ) (now : Int) (w : σ) (_ctx : κ)
    (p : Payload) : Option (σ × (Option Payload × GoError)) :=
  match p with
  | .foreign _ => none
  | .crawler payload =>
    let doc : index.Document :=
      { LinkID := payload.LinkID
        URL := payload.URL
        Title := payload.Title
        Content := payload.TextContent
        IndexedAt := now }
    match i.indexer.Index w doc with
    | (w1, some err) => some (w1, (none, some err))
    | (w1, none) => some (w1, (some p, none))

/-- An observer around an `Indexer`: it behaves like `ix` and appends every document
it is called with to a log. -/
def recording {σ : Type} (ix : Indexer σ) : Indexer (σ × List index.Document) :=
  { Index := fun w doc => (((ix.Index w.1 doc).1, w.2 ++ [doc]), (ix.Index w.1 doc).2) }

/-! ## crawler/crawler.go: Config and assembleCrawlerPipeline -/

/-- Go `Config` (crawler.go:37-52).  The interface-typed fields are type parameters. -/
structure Config (D U G σ : Type) where
  PrivateNetworkDetector : D
  URLGetter : U
  Graph : G
  Indexer : Indexer σ
  FetchWorkers : Int

/-- Modelled from the spec: the processors built inside `assembleCrawlerPipeline` (§6).  The
constructors `newLinkFetcher`, `newLinkExtractor`, `newTextExtractor` and `newGraphUpdater`
live elsewhere in the repository: each is the record of its constructor call.
`newTextIndexer` is above. -/
inductive Processor (D U G σ : Type) where
  | newLinkFetcher (urlGetter : U) (netDetector : D)
  | newLinkExtractor (netDetector : D)
  | newTextExtractor
  | newGraphUpdater (updater : G)
  | ofTextIndexer (i : textIndexer σ)

/-- Go `assembleCrawlerPipeline` (crawler.go:72-85). -/
def assembleCrawlerPipeline {D U G σ : Type} (cfg : Config D U G σ) :
    pipeline.Pipeline (Processor D U G σ) :=
  pipeline.New [
    pipeline.StageRunner.FixedWorkerPool
      (Processor.newLinkFetcher cfg.URLGetter cfg.PrivateNetworkDetector)
      cfg.FetchWorkers,
    pipeline.StageRunner.FIFO (Processor.newLinkExtractor cfg.PrivateNetworkDetector),
    pipeline.StageRunner.FIFO Processor.newTextExtractor,
    pipeline.StageRunner.Broadcast [
      Processor.newGraphUpdater cfg.Graph,
      Processor.ofTextIndexer (newTextIndexer cfg.Indexer)]]

end crawler

/-! ## Theorems -/

/-- C1. `RelayerFunc(f).Relay(dst, msg)` is exactly `f(dst, msg)`: same arguments
in the same order, same error and same effect on the world. -/
theorem RelayerFunc_Relay_forwards {σ : Type} (f : bspgraph.RelayerFunc σ) (w : σ)
    (dst : String) (msg : message.Message) :
    bspgraph.RelayerFunc.Relay f w dst msg = f w dst msg := rfl

/-- C4. `ProcessorFunc(f).Process(ctx, p)` is exactly the pair `f(ctx, p)` returns. -/
theorem ProcessorFunc_Process_forwards {σ κ π : Type} (f : pipeline.ProcessorFunc σ κ π)
    (w : σ) (ctx : κ) (p : Option π) :
    pipeline.ProcessorFunc.Process f w ctx p = f w ctx p := rfl

/-! ### countingSink and Crawl -/

namespace crawler

theorem wrapInt_add_wrapInt (a b : Int) : wrapInt (wrapInt a + b) = wrapInt (a + b) := by
  unfold wrapInt
  have h : (a + 2 ^ (intBits - 1)) % 2 ^ intBits - 2 ^ (intBits - 1) + b + 2 ^ (intBits - 1)
      = (a + 2 ^ (intBits - 1)) % 2 ^ intBits + b := by ring
  rw [h, Int.emod_add_emod]
  congr 2
  ring

theorem wrapInt_of_inRange (x : Int) (h0 : 0 ≤ x) (h1 : x ≤ maxInt) : wrapInt x = x := by
  unfold wrapInt maxInt intBits at *
  norm_num at *
  omega

theorem wrapInt_idem (a : Int) : wrapInt (wrapInt a) = wrapInt a := by
  have h := wrapInt_add_wrapInt a 0
  simpa using h

/-- After `ps.length` calls of `Consume` the counter holds the wrapped sum. -/
theorem consumeAll_count {π : Type} (ps : List π) (s : countingSink)
    (hs : wrapInt s.count = s.count) :
    (consumeAll s ps).count = wrapInt (s.count + ps.length) := by
  induction ps generalizing s with
  | nil => simp [consumeAll, hs]
  | cons p ps ih =>
    have step : consumeAll s (p :: ps) = consumeAll (s.Consume p).1 ps := rfl
    rw [step, ih _ (by simp [countingSink.Consume, wrapInt_idem])]
    simp only [countingSink.Consume, List.length_cons, Nat.cast_add, Nat.cast_one]
    rw [wrapInt_add_wrapInt]
    congr 1
    ring

theorem consumeAll_new_count {π : Type} (ps : List π) :
    (consumeAll countingSink.new ps).count = wrapInt ps.length := by
  rw [consumeAll_count ps countingSink.new (by decide)]
  simp [countingSink.new]

end crawler

/-- C2 (amended). When the pipeline hands the fresh sink exactly `2 * n` payloads and
`2 * n` does not exceed the largest `int`, `Crawl` returns `n` together with the
error of `Pipeline.Process`. -/
theorem Crawl_returns_link_count {ι π : Type} (process : ι → crawler.ProcessRun π)
    (linkIt : ι) (n : Nat) (hlen : (process linkIt).emitted.length = 2 * n)
    (hfit : (2 * n : Int) ≤ crawler.maxInt) :
    crawler.Crawl process linkIt = ((n : Int), (process linkIt).err) := by
  unfold crawler.Crawl
  simp only [crawler.countingSink.getCount, crawler.consumeAll_new_count, hlen]
  rw [crawler.wrapInt_of_inRange _ (by positivity) (by exact_mod_cast hfit)]
  congr 1
  push_cast
  exact Int.mul_tdiv_cancel_left _ (by decide)

/-- Witness of C2 (amended): three links, six payloads at the sink, count three. -/
theorem Crawl_returns_link_count_witness :
    crawler.Crawl (fun (_ : Unit) => ({ emitted := List.replicate 6 (), err := some "boom" } :
      crawler.ProcessRun Unit)) () = (((3 : Nat) : Int), some "boom") :=
  Crawl_returns_link_count (fun (_ : Unit) => ({ emitted := List.replicate 6 (), err := some "boom" } :
      crawler.ProcessRun Unit)) () 3 (by decide) (by decide)

/-- C2, as stated, fails at `n = 2^62`: after `2^63` calls of `Consume` the 64-bit
counter has wrapped to `-2^63`, and `Crawl` returns `-2^62`. -/
theorem Crawl_count_wraps :
    ((fun (_ : Unit) => ({ emitted := List.replicate (2 * 2 ^ 62) (), err := none } :
        crawler.ProcessRun Unit)) ()).emitted.length = 2 * 2 ^ 62 ∧
    crawler.Crawl (fun (_ : Unit) => ({ emitted := List.replicate (2 * 2 ^ 62) (), err := none } :
        crawler.ProcessRun Unit)) () = (-(2 ^ 62 : Int), none) ∧
    (-(2 ^ 62 : Int)) ≠ ((2 ^ 62 : Nat) : Int) := by
  refine ⟨List.length_replicate _ _, ?_, by decide⟩
  have hcount : Int.tdiv (crawler.wrapInt ((2 * 2 ^ 62 : Nat) : Int)) 2 = -(2 ^ 62 : Int) := by
    decide
  unfold crawler.Crawl
  simp only [crawler.countingSink.getCount, crawler.consumeAll_new_count, List.length_replicate,
    hcount]

/-- C3. `assembleCrawlerPipeline(cfg)` has exactly four stages, in this order: the
fixed-size worker pool of `cfg.FetchWorkers` workers running the link fetcher, the
single-worker FIFO stage running the link extractor, the single-worker FIFO stage running
the text extractor, and the broadcast stage with exactly two processors, the graph
updater of `cfg.Graph` and the text indexer of `cfg.Indexer`. -/
theorem assembleCrawlerPipeline_stages {D U G σ : Type} (cfg : crawler.Config D U G σ) :
    (crawler.assembleCrawlerPipeline cfg).stages.length = 4 ∧
    (crawler.assembleCrawlerPipeline cfg).stages =
      [ pipeline.StageRunner.FixedWorkerPool
          (crawler.Processor.newLinkFetcher cfg.URLGetter cfg.PrivateNetworkDetector)
          cfg.FetchWorkers,
        pipeline.StageRunner.FIFO
          (crawler.Processor.newLinkExtractor cfg.PrivateNetworkDetector),
        pipeline.StageRunner.FIFO crawler.Processor.newTextExtractor,
        pipeline.StageRunner.Broadcast
          [ crawler.Processor.newGraphUpdater cfg.Graph,
            crawler.Processor.ofTextIndexer { indexer := cfg.Indexer } ] ] ∧
    (∀ procs, pipeline.StageRunner.Broadcast procs ∈ (crawler.assembleCrawlerPipeline cfg).stages →
      procs.length = 2) := by
  refine ⟨rfl, rfl, ?_⟩
  intro procs h
  simp [crawler.assembleCrawlerPipeline, pipeline.New] at h
  subst h
  rfl

/-- C9. On a crawler payload, `textIndexer.Process` calls `Index` exactly once, on a
document whose `LinkID`, `URL`, `Title` and `Content` are the payload's `LinkID`, `URL`,
`Title` and `TextContent`.  If that call returns an error `err`, `Process` returns
`(nil, err)`; if it succeeds, `Process` returns the unchanged input payload and `nil`.
`Process` fails if and only if `Index` fails. -/
theorem textIndexer_Process_spec {σ κ : Type} (ix : crawler.Indexer σ) (now : Int) (w : σ)
    (ctx : κ) (payload : crawler.crawlerPayload) :
    ∃ (doc : index.Document) (w1 : σ) (e : GoError) (out : Option crawler.Payload × GoError),
      doc.LinkID = payload.LinkID ∧ doc.URL = payload.URL ∧ doc.Title = payload.Title ∧
      doc.Content = payload.TextContent ∧
      ix.Index w doc = (w1, e) ∧
      crawler.textIndexer.Process (crawler.newTextIndexer ix) now w ctx
          (crawler.Payload.crawler payload) = some (w1, out) ∧
      crawler.textIndexer.Process (crawler.newTextIndexer (crawler.recording ix)) now (w, []) ctx
          (crawler.Payload.crawler payload) = some ((w1, [doc]), out) ∧
      (∀ err, e = some err → out = (none, some err)) ∧
      (e = none → out = (some (crawler.Payload.crawler payload), none)) ∧
      (out.2.isSome ↔ e.isSome) := by
  have hdoc : ∃ doc : index.Document, doc =
      { LinkID := payload.LinkID, URL := payload.URL, Title := payload.Title,
        Content := payload.TextContent, IndexedAt := now } := ⟨_, rfl⟩
  obtain ⟨doc, hdoc⟩ := hdoc
  rcases h : ix.Index w doc with ⟨w1, e⟩
  cases e with
  | none =>
    refine ⟨doc, w1, none, (some (crawler.Payload.crawler payload), none), ?_, ?_, ?_, ?_, h,
      ?_, ?_, ?_, ?_, ?_⟩
    · rw [hdoc]
    · rw [hdoc]
    · rw [hdoc]
    · rw [hdoc]
    · simp only [crawler.textIndexer.Process, crawler.newTextIndexer, ← hdoc, h]
    · simp only [crawler.textIndexer.Process, crawler.newTextIndexer, crawler.recording, ← hdoc, h,
        List.nil_append]
    · intro err herr; cases herr
    · intro _; rfl
    · simp
  | some err =>
    refine ⟨doc, w1, some err, (none, some err), ?_, ?_, ?_, ?_, h, ?_, ?_, ?_, ?_, ?_⟩
    · rw [hdoc]
    · rw [hdoc]
    · rw [hdoc]
    · rw [hdoc]
    · simp only [crawler.textIndexer.Process, crawler.newTextIndexer, ← hdoc, h]
    · simp only [crawler.textIndexer.Process, crawler.newTextIndexer, crawler.recording, ← hdoc, h,
        List.nil_append]
    · intro err2 herr; cases herr; rfl
    · intro hnone; cases hnone
    · simp

/-! ### Message queue -/

namespace message

namespace Queue

variable {α : Type}

theorem enqueueAll_open (msgs : List α) (q : Queue α) (hq : q.closed = false) :
    q.enqueueAll msgs = .ok { q with outgoing := q.outgoing ++ msgs } := by
  induction msgs generalizing q with
  | nil => simp [enqueueAll]
  | cons msg rest ih =>
    simp only [enqueueAll, Enqueue, hq, Bool.false_eq_true, if_false]
    rw [ih _ rfl]
    simp

/-- The messages the barrier before superstep `n` made visible. -/
theorem atSuperstep_eq (sends : Nat → List α) (n : Nat) :
    atSuperstep sends n =
      .ok { incoming := if n = 0 then [] else sends (n - 1), outgoing := [], closed := false } := by
  induction n with
  | zero => rfl
  | succ k ih =>
    simp only [atSuperstep, ih]
    rw [enqueueAll_open _ _ rfl]
    simp [swap]

theorem during_eq (sends : Nat → List α) (n i : Nat) :
    during sends n i =
      .ok { incoming := if n = 0 then [] else sends (n - 1), outgoing := (sends n).take i,
            closed := false } := by
  simp only [during, atSuperstep_eq]
  rw [enqueueAll_open _ _ rfl]
  simp

end Queue

end message

/-- C6. No same-round visibility.  Take any schedule `sends` of messages enqueued for a
vertex, each message marked with the superstep in which it is enqueued.  At every point
`i` inside every superstep `m` the queue is in a defined state, and a message enqueued
during superstep `n` is among the messages the iterator of `Messages()` returns exactly
when `m = n + 1`: not during `n`, during `n + 1`, and during no other superstep. -/
theorem no_same_round_visibility {α : Type} (sends : Nat → List α) (n m i : Nat) (msg : α) :
    ∃ q, message.Queue.during (message.Queue.stamped sends) m i = .ok q ∧
      ((n, msg) ∈ q.Messages ↔ (m = n + 1 ∧ msg ∈ sends n)) := by
  refine ⟨_, message.Queue.during_eq _ m i, ?_⟩
  simp only [message.Queue.Messages, message.Queue.stamped]
  cases m with
  | zero => simp
  | succ k =>
    simp only [Nat.succ_ne_zero, if_false, Nat.add_sub_cancel, List.mem_map, Prod.mk.injEq]
    constructor
    · rintro ⟨x, hx, hk, rfl⟩
      exact ⟨by omega, hk ▸ hx⟩
    · rintro ⟨hk, hmem⟩
      have hk2 : k = n := by omega
      exact ⟨msg, hk2 ▸ hmem, hk2, rfl⟩

/-! ### Aggregator -/

namespace bspgraph

namespace Aggregator

variable {α : Type}

theorem Aggregate_swap (a : Aggregator α)
    (hrc : ∀ p x y, a.rule (a.rule p x) y = a.rule (a.rule p y) x) (w1 w2 : Nat) (v1 v2 : α) :
    (a.Aggregate w1 v1).Aggregate w2 v2 = (a.Aggregate w2 v2).Aggregate w1 v1 := by
  simp only [Aggregate, Aggregator.mk.injEq, true_and]
  refine ⟨?_, by omega⟩
  funext i
  by_cases h12 : w2 = w1
  · subst h12
    by_cases hi : i = w2
    · simp [hi, hrc]
    · simp [hi]
  · have h21 : ¬ w1 = w2 := fun h => h12 h.symm
    by_cases h1 : i = w1
    · subst h1
      simp [h12, h21]
    · by_cases h2 : i = w2
      · subst h2
        simp [h12, h21]
      · simp [h1, h2]

theorem aggregateAll_perm {l1 l2 : List (Nat × α)} (h : l1.Perm l2) :
    ∀ a : Aggregator α, (∀ p x y, a.rule (a.rule p x) y = a.rule (a.rule p y) x) →
      a.aggregateAll l1 = a.aggregateAll l2 := by
  induction h with
  | nil => intro a _; rfl
  | cons x _ ih =>
    intro a hrc
    exact ih (a.Aggregate x.1 x.2) hrc
  | swap x y l =>
    intro a hrc
    show aggregateAll ((a.Aggregate y.1 y.2).Aggregate x.1 x.2) l
      = aggregateAll ((a.Aggregate x.1 x.2).Aggregate y.1 y.2) l
    rw [Aggregate_swap a hrc]
  | trans _ _ ih1 ih2 =>
    intro a hrc
    exact (ih1 a hrc).trans (ih2 a hrc)

end Aggregator

end bspgraph

/-- C8. Aggregator merge commutativity.  When the combination rule is associative and
commutative, any two orderings of the `Aggregate` calls of one superstep (each call with
the worker that makes it) leave the same value for `Get()` after the barrier merge. -/
theorem aggregator_merge_order_independent {α : Type} (a : bspgraph.Aggregator α)
    (hassoc : ∀ x y z, a.rule (a.rule x y) z = a.rule x (a.rule y z))
    (hcomm : ∀ x y, a.rule x y = a.rule y x)
    (calls1 calls2 : List (Nat × α)) (hperm : calls1.Perm calls2) :
    ((a.aggregateAll calls1).merge).Get = ((a.aggregateAll calls2).merge).Get := by
  have hrc : ∀ p x y, a.rule (a.rule p x) y = a.rule (a.rule p y) x := by
    intro p x y
    rw [hassoc, hcomm x y, ← hassoc]
  rw [bspgraph.Aggregator.aggregateAll_perm hperm a hrc]

/-! ### Superstep executor -/

namespace bspgraph

open message

theorem allActive_of_map (g g2 : Graph) (f : Vertex → Vertex)
    (hf : ∀ u, u.active = true → (f u).active = true)
    (hv : g2.vertices = g.vertices.map f) (hs : g2.staged = g.staged)
    (h : g.allActive) : g2.allActive := by
  obtain ⟨hne, hall, hst⟩ := h
  refine ⟨?_, ?_, ?_⟩
  · rw [hv]
    simpa using hne
  · intro u hu
    rw [hv] at hu
    obtain ⟨u0, hu0, rfl⟩ := List.mem_map.mp hu
    exact hf u0 (hall u0 hu0)
  · rw [hs]
    exact hst

theorem allActive_setQueue (g : Graph) (dst : String) (q : Queue Message) (h : g.allActive) :
    (g.setQueue dst q).allActive := by
  refine allActive_of_map g _ (fun u => if u.key = dst then { u with queue := q } else u) ?_
    rfl rfl h
  intro u hu
  by_cases hk : u.key = dst <;> simp [hk, hu]

theorem allActive_setVertex (g : Graph) (key : String) (value : Int) (h : g.allActive) :
    (g.setVertex key value true).allActive := by
  refine allActive_of_map g _
    (fun u => if u.key = key then { u with value := value, active := true } else u) ?_ rfl rfl h
  intro u hu
  by_cases hk : u.key = key <;> simp [hk, hu]

theorem allActive_contribute (g : Graph) (w : Nat) (name : String) (val : Int)
    (h : g.allActive) : (g.contribute w name val).allActive :=
  allActive_of_map g _ id (fun _ hu => hu) (by simp [Graph.contribute]) rfl h

theorem allActive_contributeAll (w : Nat) (contribs : List (String × Int)) (g : Graph)
    (h : g.allActive) :
    (contribs.foldl (fun acc nv => acc.contribute w nv.1 nv.2) g).allActive := by
  induction contribs generalizing g with
  | nil => exact h
  | cons c rest ih => exact ih _ (allActive_contribute g w c.1 c.2 h)

theorem allActive_deliver (cfg : ExecutorConfig) (sends : List (String × Message)) (g : Graph)
    (h : g.allActive) : (deliver cfg g sends).1.allActive := by
  induction sends generalizing g with
  | nil => exact h
  | cons dm rest ih =>
    obtain ⟨dst, msg⟩ := dm
    simp only [deliver]
    split
    · split
      · exact ih _ (allActive_setQueue g dst _ h)
      · exact h
    · split
      · exact ih _ h
      · exact h

theorem allActive_stage (cfg : ExecutorConfig) (key : String) (muts : List Mutation)
    (g : Graph) (hm : ∀ k, Mutation.removeVertex k ∉ muts) (h : g.allActive) :
    (stage cfg key g muts).1.allActive := by
  induction muts generalizing g with
  | nil => exact h
  | cons m rest ih =>
    simp only [stage]
    split
    · apply ih
      · intro k hk
        exact hm k (List.mem_cons_of_mem _ hk)
      · obtain ⟨hne, hall, hst⟩ := h
        refine ⟨hne, hall, ?_⟩
        intro k hk
        rcases List.mem_append.mp hk with h1 | h1
        · exact hst k h1
        · rcases List.mem_singleton.mp h1 with rfl
          exact hm k (List.mem_cons_self _ _)
    · exact h

theorem allActive_processVertex (cfg : ExecutorConfig) (compute : ComputeFunc)
    (hc : neverVotesToHalt compute) (hr : neverRemovesVertex compute) (n w : Nat) (v : Vertex)
    (g : Graph) (h : g.allActive) :
    (processVertex cfg compute n g w v).1.allActive := by
  have hkept := allActive_stage cfg v.key
    (compute { superstep := n, aggregated := g.aggregated } v v.queue.Messages).mutations _
    (fun k => hr _ _ _ k) (allActive_deliver cfg
      (compute { superstep := n, aggregated := g.aggregated } v v.queue.Messages).sends g h)
  simp only [processVertex]
  split
  · exact allActive_deliver cfg _ g h
  · split
    · exact hkept
    · split
      · exact hkept
      · apply allActive_contributeAll
        rw [hc]
        exact allActive_setVertex _ _ _ hkept

theorem allActive_stepVertex (cfg : ExecutorConfig) (compute : ComputeFunc)
    (hc : neverVotesToHalt compute) (hr : neverRemovesVertex compute) (n : Nat) (st : StepState)
    (iv : Nat × Vertex) (h : st.graph.allActive) :
    (stepVertex cfg compute n st iv).graph.allActive := by
  simp only [stepVertex]
  split
  · split
    · exact h
    · exact allActive_processVertex cfg compute hc hr n _ _ _ h
  · exact allActive_processVertex cfg compute hc hr n _ _ _ h

theorem allActive_foldl_stepVertex (cfg : ExecutorConfig) (compute : ComputeFunc)
    (hc : neverVotesToHalt compute) (hr : neverRemovesVertex compute) (n : Nat)
    (ivs : List (Nat × Vertex)) (st : StepState) (h : st.graph.allActive) :
    (ivs.foldl (stepVertex cfg compute n) st).graph.allActive := by
  induction ivs generalizing st with
  | nil => exact h
  | cons iv rest ih => exact ih _ (allActive_stepVertex cfg compute hc hr n st iv h)

theorem allActive_runSuperstep (cfg : ExecutorConfig) (compute : ComputeFunc)
    (hc : neverVotesToHalt compute) (hr : neverRemovesVertex compute) (n : Nat) (g : Graph)
    (h : g.allActive) : (runSuperstep cfg compute n g).1.allActive := by
  simp only [runSuperstep]
  apply allActive_foldl_stepVertex cfg compute hc hr
  exact h

/-- A mutation other than the removal of a vertex keeps a non-empty, all-active vertex list
non-empty and all active. -/
theorem live_apply (g : Graph) (m : Mutation) (hm : ∀ k, m ≠ Mutation.removeVertex k)
    (h : g.vertices ≠ [] ∧ ∀ u ∈ g.vertices, u.active = true) :
    (g.apply m).vertices ≠ [] ∧ ∀ u ∈ (g.apply m).vertices, u.active = true := by
  obtain ⟨hne, hall⟩ := h
  cases m with
  | addVertex key value =>
    simp only [Graph.apply]
    split
    · exact ⟨hne, hall⟩
    · refine ⟨by simp, ?_⟩
      intro u hu
      rcases List.mem_append.mp hu with h1 | h1
      · exact hall u h1
      · rcases List.mem_singleton.mp h1 with rfl
        rfl
  | removeVertex key => exact absurd rfl (hm key)
  | addEdge src dst payload =>
    refine ⟨by simpa [Graph.apply] using hne, ?_⟩
    intro u hu
    simp only [Graph.apply] at hu
    obtain ⟨u0, hu0, rfl⟩ := List.mem_map.mp hu
    by_cases hk : u0.key = src <;> simp [hk, hall u0 hu0]
  | removeEdge src dst =>
    refine ⟨by simpa [Graph.apply] using hne, ?_⟩
    intro u hu
    simp only [Graph.apply] at hu
    obtain ⟨u0, hu0, rfl⟩ := List.mem_map.mp hu
    by_cases hk : u0.key = src <;> simp [hk, hall u0 hu0]

theorem live_foldl_apply (ms : List Mutation) (g : Graph)
    (hm : ∀ k, Mutation.removeVertex k ∉ ms)
    (h : g.vertices ≠ [] ∧ ∀ u ∈ g.vertices, u.active = true) :
    (ms.foldl Graph.apply g).vertices ≠ [] ∧
      ∀ u ∈ (ms.foldl Graph.apply g).vertices, u.active = true := by
  induction ms generalizing g with
  | nil => exact h
  | cons m rest ih =>
    apply ih
    · intro k hk
      exact hm k (List.mem_cons_of_mem _ hk)
    · apply live_apply g m _ h
      intro k hk
      exact hm k (hk ▸ List.mem_cons_self _ _)

theorem allActive_barrier (g : Graph) (h : g.allActive) : (barrier g).allActive := by
  obtain ⟨hne, hall, hst⟩ := h
  obtain ⟨hne2, hall2⟩ := live_foldl_apply g.staged g hst ⟨hne, hall⟩
  refine ⟨?_, ?_, ?_⟩
  · simpa [barrier, Graph.commit] using hne2
  · intro u hu
    simp only [barrier, Graph.commit, List.mem_map] at hu
    obtain ⟨u0, hu0, rfl⟩ := hu
    exact hall2 u0 hu0
  · intro k hk
    simp [barrier] at hk

theorem not_converged_of_allActive (cfg : ExecutorConfig) (g : Graph) (h : g.allActive) :
    converged cfg g = false := by
  obtain ⟨hne, hall, _⟩ := h
  obtain ⟨u, hu⟩ := List.exists_mem_of_ne_nil _ hne
  have hnot : g.vertices.all (fun v => !v.active && !v.queue.PendingMessages) = false := by
    rw [Bool.eq_false_iff]
    intro hall2
    have := List.all_eq_true.mp hall2 u hu
    simp [hall u hu] at this
  simp [converged, hnot]

theorem allActive_new (vs : List (String × Int × List (String × Int)))
    (aggs : List (String × Aggregator Int)) (hne : vs ≠ []) : (Graph.new vs aggs).allActive := by
  refine ⟨by simpa [Graph.new] using hne, ?_, ?_⟩
  · intro u hu
    simp only [Graph.new, List.mem_map] at hu
    obtain ⟨v, _, rfl⟩ := hu
    rfl
  · intro k hk
    simp [Graph.new] at hk

theorem ofError_cases (e : EngineError) :
    Outcome.ofError e = Outcome.Cancelled ∨ Outcome.ofError e = Outcome.Failed e := by
  cases e
  · exact Or.inr rfl
  · exact Or.inr rfl
  · exact Or.inr rfl
  · exact Or.inr rfl
  · exact Or.inl rfl

theorem ofError_of_ne_cancelled (e : EngineError) (h : e ≠ EngineError.CancelledError) :
    Outcome.ofError e = Outcome.Failed e := by
  cases e
  · rfl
  · rfl
  · rfl
  · rfl
  · exact absurd rfl h

/-- A superstep that completes without convergence and below the cap hands over to the next. -/
theorem reach_succ_of_step (cfg : ExecutorConfig) (compute : ComputeFunc) (j n : Nat) (g : Graph)
    (herr : firstError (runSuperstep cfg compute n g).2 = none)
    (hconv : converged cfg (barrier (runSuperstep cfg compute n g).1) = false)
    (hcap : capReached cfg (n + 1) = false) :
    reach cfg compute (j + 1) n g
      = reach cfg compute j (n + 1) (barrier (runSuperstep cfg compute n g).1) := by
  simp [reach, herr, hconv, hcap]

/-- With all vertices active and a compute function that never votes to halt and never
removes a vertex, the loop ends within the cap: either at the cap with the max-supersteps
outcome, after supersteps `n` to `k - 1` and no other, or before the cap in a superstep in
which an error or the cancellation signal was observed. -/
theorem run_cap_or_aborted (cfg : ExecutorConfig) (compute : ComputeFunc) (k : Nat)
    (hcap : cfg.maxSupersteps = some k) (hc : neverVotesToHalt compute)
    (hr : neverRemovesVertex compute) :
    ∀ (fuel n : Nat) (g : Graph), g.allActive → n < k → k - n ≤ fuel →
      ∃ r, run cfg compute fuel n g = some r ∧
        ((r.outcome = Outcome.HaltedMaxSupersteps ∧ r.barriers = k ∧
            (reach cfg compute (k - n - 1) n g).isSome = true ∧
            reach cfg compute (k - n) n g = none) ∨
         (∃ e, r.outcome = Outcome.ofError e ∧ r.barriers < k)) := by
  intro fuel
  induction fuel with
  | zero => intro n g _ hn hf; omega
  | succ fuel ih =>
    intro n g hg hn hf
    cases herr : firstError (runSuperstep cfg compute n g).2 with
    | some e =>
      refine ⟨{ outcome := Outcome.ofError e, graph := g, barriers := n }, ?_, Or.inr ⟨e, rfl, hn⟩⟩
      simp only [run, herr]
    | none =>
      have hg1 := allActive_barrier _ (allActive_runSuperstep cfg compute hc hr n g hg)
      have hconv := not_converged_of_allActive cfg _ hg1
      by_cases hk : k ≤ n + 1
      · have hkn : k = n + 1 := by omega
        have hcapr : capReached cfg (n + 1) = true := by simp [capReached, hcap, hk]
        refine ⟨{ outcome := Outcome.HaltedMaxSupersteps,
                  graph := barrier (runSuperstep cfg compute n g).1, barriers := n + 1 }, ?_,
          Or.inl ⟨rfl, hkn.symm, ?_, ?_⟩⟩
        · simp only [run, herr, hconv, hcapr, Bool.false_eq_true, if_false, if_true]
        · have h0 : k - n - 1 = 0 := by omega
          rw [h0]
          rfl
        · have h1 : k - n = 0 + 1 := by omega
          rw [h1]
          simp [reach, herr, hconv, hcapr]
      · have hcapr : capReached cfg (n + 1) = false := by simp [capReached, hcap, hk]
        obtain ⟨r, hrun, hcase⟩ := ih (n + 1) _ hg1 (by omega) (by omega)
        refine ⟨r, ?_, ?_⟩
        · simp only [run, herr, hconv, hcapr, Bool.false_eq_true, if_false]
          exact hrun
        · rcases hcase with ⟨hmax, hb, hlast, hnext⟩ | hab
          · refine Or.inl ⟨hmax, hb, ?_, ?_⟩
            · have h1 : k - n - 1 = (k - (n + 1) - 1) + 1 := by omega
              rw [h1, reach_succ_of_step cfg compute _ n g herr hconv hcapr]
              exact hlast
            · have h1 : k - n = (k - (n + 1)) + 1 := by omega
              rw [h1, reach_succ_of_step cfg compute _ n g herr hconv hcapr]
              exact hnext
          · exact Or.inr hab

theorem firstError_append_of_none (pre post : List Event) (h : firstError pre = none) :
    firstError (pre ++ post) = firstError post := by
  simp only [firstError] at *
  rw [List.findSome?_append, h]
  rfl

theorem firstError_isSome_of_mem (evs : List Event) (ev : Event) (err : EngineError)
    (hmem : ev ∈ evs) (herr : ev.error = some err) : ∃ e, firstError evs = some e := by
  induction evs with
  | nil => cases hmem
  | cons x rest ih =>
    simp only [firstError, List.findSome?_cons]
    cases hx : x.error with
    | some e0 => exact ⟨e0, rfl⟩
    | none =>
      rcases List.mem_cons.mp hmem with rfl | hin
      · rw [herr] at hx
        cases hx
      · exact ih hin

/-- The first error observed comes from an event of the log. -/
theorem firstError_mem (evs : List Event) (err : EngineError) (h : firstError evs = some err) :
    ∃ ev ∈ evs, ev.error = some err := by
  induction evs with
  | nil => cases h
  | cons x rest ih =>
    simp only [firstError, List.findSome?_cons] at h
    cases hx : x.error with
    | some e0 =>
      rw [hx] at h
      simp only [Option.some.injEq] at h
      exact ⟨x, List.mem_cons_self _ _, by rw [hx, h]⟩
    | none =>
      rw [hx] at h
      obtain ⟨ev, hev, he⟩ := ih h
      exact ⟨ev, List.mem_cons_of_mem _ hev, he⟩

theorem cancelled_of_error (ev : Event) (h : ev.error = some EngineError.CancelledError) :
    ev = Event.cancelled := by
  cases ev with
  | relayed dst msg result => cases result <;> simp [Event.error] at h
  | enqueued dst msg failure => cases failure <;> simp [Event.error] at h
  | staged v m result => cases result <;> simp [Event.error] at h
  | computed v result => cases result <;> simp [Event.error] at h
  | cancelled => rfl

/-- An execution that reaches superstep `n + k` in state `gN`, where an error is observed,
ends there: it reports the first error, exposes `gN`, and has `n + k` completed barriers. -/
theorem run_of_reach (cfg : ExecutorConfig) (compute : ComputeFunc) (gN : Graph)
    (err : EngineError) :
    ∀ (k n : Nat) (g : Graph) (fuel : Nat), reach cfg compute k n g = some gN →
      firstError (runSuperstep cfg compute (n + k) gN).2 = some err → k < fuel →
      run cfg compute fuel n g
        = some { outcome := Outcome.ofError err, graph := gN, barriers := n + k } := by
  intro k
  induction k with
  | zero =>
    intro n g fuel hreach herr hfuel
    simp only [reach, Option.some.injEq] at hreach
    subst hreach
    obtain ⟨f, rfl⟩ : ∃ f, fuel = f + 1 := ⟨fuel - 1, by omega⟩
    simp only [Nat.add_zero] at herr
    simp only [run, herr, Nat.add_zero]
  | succ k ih =>
    intro n g fuel hreach herr hfuel
    obtain ⟨f, rfl⟩ : ∃ f, fuel = f + 1 := ⟨fuel - 1, by omega⟩
    cases hstep : firstError (runSuperstep cfg compute n g).2 with
    | some e0 => simp [reach, hstep] at hreach
    | none =>
      cases hconv : converged cfg (barrier (runSuperstep cfg compute n g).1) with
      | true => simp [reach, hstep, hconv] at hreach
      | false =>
        cases hcap : capReached cfg (n + 1) with
        | true => simp [reach, hstep, hconv, hcap] at hreach
        | false =>
          rw [reach_succ_of_step cfg compute k n g hstep hconv hcap] at hreach
          have hidx : n + (k + 1) = n + 1 + k := by omega
          rw [hidx] at herr ⊢
          simp only [run, hstep, hconv, hcap, Bool.false_eq_true, if_false]
          exact ih (n + 1) _ f hreach herr (by omega)

theorem honestLog_append (cfg : ExecutorConfig) (xs ys : List Event)
    (hx : honestLog cfg xs) (hy : honestLog cfg ys) : honestLog cfg (xs ++ ys) := by
  intro dst msg r hmem
  rcases List.mem_append.mp hmem with h | h
  · exact hx dst msg r h
  · exact hy dst msg r h

theorem honestLog_of_no_relayed (cfg : ExecutorConfig) (evs : List Event)
    (h : ∀ dst msg r, Event.relayed dst msg r ∉ evs) : honestLog cfg evs :=
  fun dst msg r hmem => absurd hmem (h dst msg r)

theorem honestLog_deliver (cfg : ExecutorConfig) (sends : List (String × Message)) (g : Graph) :
    honestLog cfg (deliver cfg g sends).2 := by
  induction sends generalizing g with
  | nil => intro dst msg r hmem; cases hmem
  | cons dm rest ih =>
    obtain ⟨d, m⟩ := dm
    intro dst msg r hmem
    simp only [deliver] at hmem
    split at hmem
    · split at hmem
      · rcases List.mem_cons.mp hmem with h | h
        · cases h
        · exact ih _ dst msg r h
      · rcases List.mem_cons.mp hmem with h | h
        · cases h
        · cases h
    · split at hmem
      · rename_i hres
        rcases List.mem_cons.mp hmem with h | h
        · cases h
          exact hres.symm
        · exact ih _ dst msg r h
      · rename_i e hres
        rcases List.mem_cons.mp hmem with h | h
        · cases h
          exact hres.symm
        · cases h

theorem honestLog_stage (cfg : ExecutorConfig) (key : String) (muts : List Mutation)
    (g : Graph) : honestLog cfg (stage cfg key g muts).2 := by
  induction muts generalizing g with
  | nil => intro dst msg r hmem; cases hmem
  | cons m rest ih =>
    intro dst msg r hmem
    simp only [stage] at hmem
    split at hmem
    · rcases List.mem_cons.mp hmem with h | h
      · cases h
      · exact ih _ dst msg r h
    · rcases List.mem_cons.mp hmem with h | h
      · cases h
      · cases h

theorem honestLog_processVertex (cfg : ExecutorConfig) (compute : ComputeFunc) (n w : Nat)
    (v : Vertex) (g : Graph) : honestLog cfg (processVertex cfg compute n g w v).2 := by
  have hcomputed : ∀ res, honestLog cfg [Event.computed v.key res] := by
    intro res dst msg r hmem
    rcases List.mem_cons.mp hmem with h | h
    · cases h
    · cases h
  simp only [processVertex]
  split
  · exact honestLog_deliver cfg _ g
  · split
    · exact honestLog_append cfg _ _ (honestLog_deliver cfg _ g) (honestLog_stage cfg _ _ _)
    · split
      · exact honestLog_append cfg _ _
          (honestLog_append cfg _ _ (honestLog_deliver cfg _ g) (honestLog_stage cfg _ _ _))
          (hcomputed _)
      · exact honestLog_append cfg _ _
          (honestLog_append cfg _ _ (honestLog_deliver cfg _ g) (honestLog_stage cfg _ _ _))
          (hcomputed _)

theorem honestLog_cancelEvents (cfg : ExecutorConfig) (n i : Nat) :
    honestLog cfg (cancelEvents cfg n i) := by
  intro dst msg r hmem
  simp only [cancelEvents] at hmem
  split at hmem
  · rcases List.mem_cons.mp hmem with h | h
    · cases h
    · cases h
  · cases hmem

theorem honestLog_lateCancel (cfg : ExecutorConfig) (n len : Nat) (st : StepState) :
    honestLog cfg (lateCancel cfg n len st) := by
  intro dst msg r hmem
  simp only [lateCancel] at hmem
  split at hmem
  · cases hmem
  · split at hmem
    · rcases List.mem_cons.mp hmem with h | h
      · cases h
      · cases h
    · cases hmem

theorem honestLog_stepVertex (cfg : ExecutorConfig) (compute : ComputeFunc) (n : Nat)
    (st : StepState) (iv : Nat × Vertex) (h : honestLog cfg st.events) :
    honestLog cfg (stepVertex cfg compute n st iv).events := by
  have hnew := honestLog_append cfg _ _ (honestLog_cancelEvents cfg n iv.1)
    (honestLog_processVertex cfg compute n (iv.1 % cfg.workers) iv.2 st.graph)
  simp only [stepVertex]
  split
  · split
    · exact h
    · exact honestLog_append cfg _ _ h hnew
  · exact honestLog_append cfg _ _ h hnew

theorem honestLog_runSuperstep (cfg : ExecutorConfig) (compute : ComputeFunc) (n : Nat)
    (g : Graph) : honestLog cfg (runSuperstep cfg compute n g).2 := by
  simp only [runSuperstep]
  have hfold : ∀ (ivs : List (Nat × Vertex)) (st : StepState), honestLog cfg st.events →
      honestLog cfg (ivs.foldl (stepVertex cfg compute n) st).events := by
    intro ivs
    induction ivs with
    | nil => intro st h; exact h
    | cons iv rest ih => intro st h; exact ih _ (honestLog_stepVertex cfg compute n st iv h)
  apply honestLog_append cfg _ _ _ (honestLog_lateCancel cfg n _ _)
  apply hfold
  intro dst msg r hmem
  cases hmem

end bspgraph

open bspgraph

/-- C5 (amended). Relay fatal propagation.  If the execution reaches superstep `N` and the
relayer returns an error for a message sent during `N`, then the execution ends in `N`
without its barrier: the state exposed is the one in which `N` started and exactly `N`
barriers are completed.  The outcome reports the first error observed during `N`: it is
"cancelled" only when that is the cancellation signal, observed during `N`, and otherwise a
failure referencing that first error, which is the relay error whenever nothing was observed
before it. -/
theorem relay_error_is_fatal (cfg : ExecutorConfig) (compute : ComputeFunc) (g gN : Graph)
    (N fuel : Nat) (dst : String) (msg : message.Message) (e : String)
    (hreach : reach cfg compute N 0 g = some gN)
    (hrelay : Event.relayed dst msg (some e) ∈ (runSuperstep cfg compute N gN).2)
    (hfuel : N < fuel) :
    (RelayerFunc.Relay cfg.relayer () dst msg).2 = some e ∧
    ∃ err, firstError (runSuperstep cfg compute N gN).2 = some err ∧
      execute cfg compute fuel g
        = some { outcome := Outcome.ofError err, graph := gN, barriers := N } ∧
      (err = EngineError.CancelledError →
        Outcome.ofError err = Outcome.Cancelled ∧
        Event.cancelled ∈ (runSuperstep cfg compute N gN).2) ∧
      (err ≠ EngineError.CancelledError → Outcome.ofError err = Outcome.Failed err) ∧
      (∀ pre post, (runSuperstep cfg compute N gN).2 = pre ++ Event.relayed dst msg (some e) :: post →
        firstError pre = none → err = EngineError.RelayError dst e) := by
  obtain ⟨err, herr⟩ := firstError_isSome_of_mem _ _ (EngineError.RelayError dst e) hrelay rfl
  refine ⟨(honestLog_runSuperstep cfg compute N gN dst msg (some e) hrelay).symm, err, herr,
    ?_, ?_, ofError_of_ne_cancelled err, ?_⟩
  · have h := run_of_reach cfg compute gN err N 0 g fuel hreach (by simpa using herr) hfuel
    simpa [execute] using h
  · intro hc
    subst hc
    obtain ⟨ev, hev, he⟩ := firstError_mem _ _ herr
    exact ⟨rfl, cancelled_of_error ev he ▸ hev⟩
  · intro pre post hsplit hpre
    rw [hsplit, firstError_append_of_none pre _ hpre] at herr
    simp only [firstError, List.findSome?_cons, Event.error, Option.some.injEq] at herr
    exact herr.symm

/-- Witness of C5 (amended): vertex `a` sends to the remote vertex `z` in superstep 0 and
the relayer fails. -/
theorem relay_error_is_fatal_witness :
    (RelayerFunc.Relay (sampleConfig 1 none).relayer () "z" { msgType := "ping", body := 1 }).2
      = some "no route to z" ∧
    ∃ err, firstError (runSuperstep (sampleConfig 1 none) forwardingCompute 0 oneRemoteEdge).2
        = some err ∧
      execute (sampleConfig 1 none) forwardingCompute 1 oneRemoteEdge
        = some { outcome := Outcome.ofError err, graph := oneRemoteEdge, barriers := 0 } ∧
      (err = EngineError.CancelledError →
        Outcome.ofError err = Outcome.Cancelled ∧
        Event.cancelled ∈ (runSuperstep (sampleConfig 1 none) forwardingCompute 0 oneRemoteEdge).2) ∧
      (err ≠ EngineError.CancelledError → Outcome.ofError err = Outcome.Failed err) ∧
      (∀ pre post, (runSuperstep (sampleConfig 1 none) forwardingCompute 0 oneRemoteEdge).2
          = pre ++ Event.relayed "z" { msgType := "ping", body := 1 } (some "no route to z") :: post →
        firstError pre = none → err = EngineError.RelayError "z" "no route to z") :=
  relay_error_is_fatal (sampleConfig 1 none) forwardingCompute oneRemoteEdge oneRemoteEdge 0 1
    "z" { msgType := "ping", body := 1 } "no route to z" rfl (by decide) (by decide)

/-- C5, as stated, fails in three executions.  In each, the relayer returns an error for a
message sent in superstep 0, and the outcome is not a failure referencing that error.
First: the cancellation signal is observed before the relay error (§5, §7), and the outcome
is "cancelled".  Second, two workers in flight (§4.5): the compute function fails on `a`,
then the relayer fails for the message to `z`; the outcome references the compute error,
the first one observed (§7).  Third, two workers in flight: the relayer fails for the
message to `y` and for the message to `z`; the single error surfaced is the first. -/
theorem relay_error_not_always_referenced :
    (Event.relayed "z" { msgType := "ping", body := 1 } (some "no route to z")
        ∈ (runSuperstep (cancelledConfig 1 none 0) forwardingCompute 0 oneRemoteEdge).2 ∧
     (execute (cancelledConfig 1 none 0) forwardingCompute 1 oneRemoteEdge).map
        (fun r => r.outcome) = some Outcome.Cancelled) ∧
    (Event.relayed "z" { msgType := "ping", body := 2 } (some "no route to z")
        ∈ (runSuperstep (sampleConfig 2 none) failOrForwardCompute 0 isolatedAndRemoteEdge).2 ∧
     (execute (sampleConfig 2 none) failOrForwardCompute 1 isolatedAndRemoteEdge).map
        (fun r => r.outcome) = some (Outcome.Failed (EngineError.ComputeError "a" "boom"))) ∧
    (Event.relayed "y" { msgType := "ping", body := 1 } (some "no route to y")
        ∈ (runSuperstep (sampleConfig 2 none) forwardingCompute 0 twoRemoteEdges).2 ∧
     Event.relayed "z" { msgType := "ping", body := 2 } (some "no route to z")
        ∈ (runSuperstep (sampleConfig 2 none) forwardingCompute 0 twoRemoteEdges).2 ∧
     (execute (sampleConfig 2 none) forwardingCompute 1 twoRemoteEdges).map (fun r => r.outcome)
        = some (Outcome.Failed (EngineError.RelayError "y" "no route to y")) ∧
     Outcome.Failed (EngineError.RelayError "y" "no route to y")
        ≠ Outcome.Failed (EngineError.RelayError "z" "no route to z")) := by
  decide

/-- C7 (amended). Max-superstep cutoff.  For every cap `k ≥ 1`, an execution over a graph
with at least one vertex, whose compute function never votes to halt and never removes a
vertex, that is not cancelled and in which no superstep fails, terminates (given fuel for
`k` supersteps) with the outcome "max supersteps exceeded" after exactly `k` rounds:
`k` barriers are completed, superstep `k - 1` is started and superstep `k` is not.  That
outcome is distinct from natural convergence, from cancellation and from failure. -/
theorem max_superstep_cutoff (cfg : ExecutorConfig) (compute : ComputeFunc) (k fuel : Nat)
    (vs : List (String × Int × List (String × Int))) (aggs : List (String × Aggregator Int))
    (hk : 1 ≤ k) (hcap : cfg.maxSupersteps = some k) (hfuel : k ≤ fuel) (hvs : vs ≠ [])
    (hc : neverVotesToHalt compute) (hr : neverRemovesVertex compute)
    (hok : ∀ r, execute cfg compute fuel (Graph.new vs aggs) = some r →
      r.outcome ≠ Outcome.Cancelled ∧ ∀ e, r.outcome ≠ Outcome.Failed e) :
    ∃ r, execute cfg compute fuel (Graph.new vs aggs) = some r ∧
      r.outcome = Outcome.HaltedMaxSupersteps ∧ r.barriers = k ∧
      (reach cfg compute (k - 1) 0 (Graph.new vs aggs)).isSome = true ∧
      reach cfg compute k 0 (Graph.new vs aggs) = none ∧
      r.outcome ≠ Outcome.HaltedConverged ∧ r.outcome ≠ Outcome.Cancelled ∧
      ∀ e, r.outcome ≠ Outcome.Failed e := by
  obtain ⟨r, hrun, hcase⟩ := run_cap_or_aborted cfg compute k hcap hc hr fuel 0 (Graph.new vs aggs)
    (allActive_new vs aggs hvs) (by omega) (by omega)
  rcases hcase with ⟨hmax, hb, hlast, hnext⟩ | ⟨e, he, _⟩
  · refine ⟨r, hrun, hmax, hb, by simpa using hlast, by simpa using hnext, ?_, ?_, ?_⟩
    · rw [hmax]; exact fun h => nomatch h
    · rw [hmax]; exact fun h => nomatch h
    · intro e; rw [hmax]; exact fun h => nomatch h
  · obtain ⟨hnc, hnf⟩ := hok r hrun
    rcases ofError_cases e with h | h
    · exact absurd (he.trans h) hnc
    · exact absurd (he.trans h) (hnf e)

/-- Witness of C7 (amended): one idle vertex, cap 3. -/
theorem max_superstep_cutoff_witness :
    ∃ r, execute (sampleConfig 2 (some 3)) idleCompute 5 (Graph.new [("a", 0, [])] []) = some r ∧
      r.outcome = Outcome.HaltedMaxSupersteps ∧ r.barriers = 3 ∧
      (reach (sampleConfig 2 (some 3)) idleCompute (3 - 1) 0 (Graph.new [("a", 0, [])] [])).isSome
        = true ∧
      reach (sampleConfig 2 (some 3)) idleCompute 3 0 (Graph.new [("a", 0, [])] []) = none ∧
      r.outcome ≠ Outcome.HaltedConverged ∧ r.outcome ≠ Outcome.Cancelled ∧
      ∀ e, r.outcome ≠ Outcome.Failed e :=
  max_superstep_cutoff (sampleConfig 2 (some 3)) idleCompute 3 5 [("a", 0, [])] []
    (by decide) rfl (by decide) (by simp) (fun _ _ _ => rfl)
    (fun _ _ _ _ h => nomatch h)
    (by
      intro r hr
      have hout : (execute (sampleConfig 2 (some 3)) idleCompute 5
          (Graph.new [("a", 0, [])] [])).map (fun r => r.outcome)
          = some Outcome.HaltedMaxSupersteps := by decide
      rw [hr] at hout
      simp only [Option.map_some', Option.some.injEq] at hout
      rw [hout]
      exact ⟨(fun h => nomatch h), (fun e h => nomatch h)⟩)

/-- C7, as stated, fails in four executions whose compute function never votes to halt.  A
compute function that returns an error ends the execution with cap 1 as a failure after no
completed round (§4.5).  Over a graph without vertices the execution with cap 2 halts
converged after one round (§4.5, termination predicate).  An execution with cap 2 whose
cancellation signal is observed in superstep 0 ends "cancelled" after no completed round
(§5).  A compute function that removes its own vertex leaves no vertex at the first barrier
(§4.4, §4.5 (a)), and the execution with cap 2 halts converged after one round. -/
theorem max_superstep_cutoff_needs_more :
    (neverVotesToHalt failingCompute ∧
     (execute (sampleConfig 1 (some 1)) failingCompute 5 (Graph.new [("a", 0, [])] [])).map
        (fun r => (r.outcome, r.barriers))
      = some (Outcome.Failed (EngineError.ComputeError "a" "boom"), 0)) ∧
    (neverVotesToHalt idleCompute ∧
     (execute (sampleConfig 1 (some 2)) idleCompute 5 (Graph.new [] [])).map
        (fun r => (r.outcome, r.barriers))
      = some (Outcome.HaltedConverged, 1)) ∧
    (neverVotesToHalt idleCompute ∧
     (execute (cancelledConfig 1 (some 2) 0) idleCompute 5 (Graph.new [("a", 0, [])] [])).map
        (fun r => (r.outcome, r.barriers))
      = some (Outcome.Cancelled, 0)) ∧
    (neverVotesToHalt removingCompute ∧
     (execute (sampleConfig 1 (some 2)) removingCompute 5 (Graph.new [("a", 0, [])] [])).map
        (fun r => (r.outcome, r.barriers))
      = some (Outcome.HaltedConverged, 1)) := by
  refine ⟨⟨fun _ _ _ => rfl, by decide⟩, ⟨fun _ _ _ => rfl, by decide⟩,
    ⟨fun _ _ _ => rfl, by decide⟩, ⟨fun _ _ _ => rfl, by decide⟩⟩

/-- Witness of C8: a sum aggregator, three calls from two workers, in two orders. -/
theorem aggregator_merge_order_independent_witness :
    (((bspgraph.Aggregator.new "sum" (fun x y : Int => x + y) 0 10).aggregateAll
        [(0, 1), (1, 2), (0, 3)]).merge).Get
      = (((bspgraph.Aggregator.new "sum" (fun x y : Int => x + y) 0 10).aggregateAll
        [(1, 2), (0, 3), (0, 1)]).merge).Get :=
  aggregator_merge_order_independent (bspgraph.Aggregator.new "sum" (fun x y : Int => x + y) 0 10)
    (fun x y z => Int.add_assoc x y z) (fun x y => Int.add_comm x y)
    [(0, 1), (1, 2), (0, 3)] [(1, 2), (0, 3), (0, 1)] (by decide)

end LinksRUs
